import Mathlib

/-!
Shallow embedding of the core of `src/src/App.jsx` (password generator).

Modelling conventions:
* JS strings holding characters are modelled as `List Char`.
* The Web Crypto random source (`window.crypto.getRandomValues` filling a
  `Uint32Array(1)`) is modelled as a stream `g : Nat → Nat` together with a
  counter `k`: the k-th sampled 32-bit word is `g k % UINT32`.  Functions that
  draw randomness thread the counter explicitly and return it, so a whole run
  is a pure function of `(g, k)` and of its ordinary arguments.
* JS numbers that are used as non-negative sizes/indices are `Nat`;
  `estimateStrength` works on arbitrary JS integers and is modelled over `Int`.
-/

namespace PasswordGenerator

/-- `2^32`, the modulus of a `Uint32Array` cell. -/
def UINT32 : Nat := 4294967296

/-- `const AMBIGUOUS = new Set(["1", "l", "I", "0", "O", "o"])` (App.jsx:21). -/
def AMBIGUOUS : List Char := ['1', 'l', 'I', '0', 'O', 'o']

/-- `CHARSETS.upper` (App.jsx:24). -/
def CHARSETS_upper : List Char := "ABCDEFGHIJKLMNOPQRSTUVWXYZ".toList

/-- `CHARSETS.lower` (App.jsx:25). -/
def CHARSETS_lower : List Char := "abcdefghijklmnopqrstuvwxyz".toList

/-- `CHARSETS.digits` (App.jsx:26). -/
def CHARSETS_digits : List Char := "0123456789".toList

/-- `CHARSETS.symbols` (App.jsx:27). -/
def CHARSETS_symbols : List Char := "!@#$%^&*()-_=+[]\x7b\x7d;:,.?/".toList

/-- `sanitizeCharset(str, easyToRead)` (App.jsx:30-33): when `easyToRead`,
drop every character of `AMBIGUOUS`, keeping relative order. -/
def sanitizeCharset (str : List Char) (easyToRead : Bool) : List Char :=
  if !easyToRead then str
  else str.filter (fun ch => ! AMBIGUOUS.contains ch)

/-- `cryptoRandomInt(maxExclusive)` (App.jsx:35-41).  The sampled 32-bit word
`w` is passed explicitly (in the program it is `arr[0]` after
`getRandomValues`).  `maxExclusive <= 0` collapses to `= 0` over `Nat`. -/
def cryptoRandomInt (maxExclusive : Nat) (w : Nat) : Nat :=
  if maxExclusive = 0 then 0 else w % maxExclusive

/-- The k-th 32-bit word produced by the random source `g`
(`window.crypto.getRandomValues` on a `Uint32Array(1)`). -/
def getRandomWord (g : Nat → Nat) (k : Nat) : Nat := g k % UINT32

/-- The destructuring swap `[a[i], a[j]] = [a[j], a[i]]` (App.jsx:48) on a
list; out-of-range indices leave the list unchanged (never reached by
`shuffleCrypto`, whose indices are always in range). -/
def listSwap {α : Type} (a : List α) (i j : Nat) : List α :=
  match a[i]?, a[j]? with
  | some x, some y => (a.set i y).set j x
  | _, _ => a

/-- The loop body chain of `shuffleCrypto` (App.jsx:46-49): the argument
`i + 1` is the current loop index, counting down to 1; each iteration draws
one word and swaps.  Returns the final list and counter. -/
def shuffleAux {α : Type} (g : Nat → Nat) : List α → Nat → Nat → List α × Nat
  | a, k, 0 => (a, k)
  | a, k, i + 1 =>
    let j := cryptoRandomInt (i + 2) (getRandomWord g k)
    shuffleAux g (listSwap a (i + 1) j) (k + 1) i

/-- `shuffleCrypto(array)` (App.jsx:43-51): Fisher–Yates from index
`array.length - 1` down to 1, driven by the random source. -/
def shuffleCrypto {α : Type} (g : Nat → Nat) (k : Nat) (array : List α) :
    List α × Nat :=
  shuffleAux g array k (array.length - 1)

/-- The options record destructured by `buildPools` and friends:
`{ useUpper, useLower, useDigits, useSymbols, easyToRead }`. -/
structure Options where
  useUpper : Bool
  useLower : Bool
  useDigits : Bool
  useSymbols : Bool
  easyToRead : Bool

/-- `buildPools(options)` (App.jsx:53-62): push the sanitized charset of each
enabled category in the order upper, lower, digits, symbols, then drop empty
pools. -/
def buildPools (o : Options) : List (List Char) :=
  let pools :=
    (if o.useUpper then [sanitizeCharset CHARSETS_upper o.easyToRead] else []) ++
    (if o.useLower then [sanitizeCharset CHARSETS_lower o.easyToRead] else []) ++
    (if o.useDigits then [sanitizeCharset CHARSETS_digits o.easyToRead] else []) ++
    (if o.useSymbols then [sanitizeCharset CHARSETS_symbols o.easyToRead] else [])
  pools.filter (fun p => decide (0 < p.length))

/-- `poolsCount` (App.jsx:113-115):
`[useUpper, useLower, useDigits, useSymbols].filter(Boolean).length`. -/
def poolsCount (o : Options) : Nat :=
  ([o.useUpper, o.useLower, o.useDigits, o.useSymbols].filter (fun b => b)).length

/-- `pools.map((pool) => pool[cryptoRandomInt(pool.length)])` (App.jsx:69),
threading the word counter left to right.  Every pool passed by
`generatePassword` is non-empty, so the drawn index is always in range and
the `getD` default is never used. -/
def requiredChars (g : Nat → Nat) : List (List Char) → Nat → List Char × Nat
  | [], k => ([], k)
  | pool :: ps, k =>
    let c := pool.getD (cryptoRandomInt pool.length (getRandomWord g k)) ' '
    let rest := requiredChars g ps (k + 1)
    (c :: rest.1, rest.2)

/-- `Array.from({ length: remainingCount }, () => combined[cryptoRandomInt(combined.length)])`
(App.jsx:75-77), threading the word counter in order. -/
def fillerChars (g : Nat → Nat) (combined : List Char) :
    Nat → Nat → List Char × Nat
  | 0, k => ([], k)
  | n + 1, k =>
    let c := combined.getD (cryptoRandomInt combined.length (getRandomWord g k)) ' '
    let rest := fillerChars g combined n (k + 1)
    (c :: rest.1, rest.2)

/-- `generatePassword(length, options)` (App.jsx:64-81).  Over `Nat`,
`length - (required list).length` equals `Math.max(0, length - required.length)`. -/
def generatePassword (g : Nat → Nat) (k : Nat) (length : Nat) (options : Options) :
    List Char :=
  let pools := buildPools options
  if pools.length = 0 then []
  else
    let req := requiredChars g pools k
    let combined := pools.flatten
    let remainingCount := length - req.1.length
    let rem := fillerChars g combined remainingCount req.2
    (shuffleCrypto g rem.2 (req.1 ++ rem.1)).1

/-- The record returned by `estimateStrength` (App.jsx:91-93). -/
structure StrengthResult where
  label : String
  level : Nat
  score : Int

/-- `estimateStrength({ length, poolsCount, hasSymbols })` (App.jsx:83-94).
Note the length term is `Math.min(60, (length - 6) * 6)` with no lower clamp;
only the final score is clamped to `[0, 100]`. -/
def estimateStrength (length : Int) (poolsCnt : Int) (hasSymbols : Bool) :
    StrengthResult :=
  let lenScore := min 60 ((length - 6) * 6)
  let varietyScore := poolsCnt * 12
  let symbolsBonus : Int := if hasSymbols then 10 else 0
  let score := max 0 (min 100 (lenScore + varietyScore + symbolsBonus))
  if score < 45 then ⟨"Słabe", 1, score⟩
  else if score < 75 then ⟨"Średnie", 2, score⟩
  else ⟨"Silne", 3, score⟩

/-- A fixed random source used by witnesses: any stream works, the theorems
hold for all of them. -/
def gW : Nat → Nat := fun n => (n * 2654435761 + 12345) % UINT32

/-- An options value with every category enabled and easy-to-read on. -/
def oW : Options := ⟨true, true, true, true, true⟩

/-- Claim C5: the strength examples of the spec, evaluated on
`estimateStrength` (tiers encoded by `level`: Weak = 1, Medium = 2,
Strong = 3). -/
theorem estimateStrength_examples :
    (estimateStrength 6 0 false).score = 0 ∧
    (estimateStrength 16 4 true).score = 100 ∧
    (estimateStrength 16 4 true).level = 3 ∧
    (estimateStrength 12 3 false).score = 72 ∧
    (estimateStrength 12 3 false).level = 2 := by
  decide

/-- Claim C4, counterexample: at `length = 0`, `poolsCount = 4`,
`hasSymbols = true` the code scores 22 (its length term is
`min 60 ((length - 6) * 6)`, which can go negative), while the claimed
formula `clamp(0, 100, clamp(0, 60, (length - 6) * 6) + 12 * poolsCount +
symbolBonus)` gives 58. -/
theorem estimateStrength_claim_counterexample :
    ¬ ((estimateStrength 0 4 true).score =
        max 0 (min 100 (max 0 (min 60 (((0 : Int) - 6) * 6)) + 4 * 12 +
          (if true then (10 : Int) else 0)))) := by
  decide

/-- Claim C4, amended: the score is
`clamp(0, 100, min(60, (length - 6) * 6) + poolsCount * 12 + symbolBonus)` —
the length term is capped above at 60 but not clamped below at 0 — and the
tier (`level`) is 1 (Weak) for score < 45, 2 (Medium) for score < 75, and
3 (Strong) otherwise. -/
theorem estimateStrength_score_level (L P : Int) (s : Bool) :
    (estimateStrength L P s).score =
      max 0 (min 100 (min 60 ((L - 6) * 6) + P * 12 + (if s then 10 else 0)))
    ∧ (estimateStrength L P s).level =
      (if (estimateStrength L P s).score < 45 then 1
       else if (estimateStrength L P s).score < 75 then 2 else 3) := by
  simp only [estimateStrength]
  split_ifs <;> simp_all

/-- Claim C9: `cryptoRandomInt` with a positive bound reduces the sampled
32-bit word modulo the bound, so the result lies in `[0, bound)`; hence
every pool, combined-pool and shuffle index drawn during generation is in
bounds for its bound. -/
theorem cryptoRandomInt_spec (w b : Nat) (hw : w < UINT32) (hb : 0 < b) :
    cryptoRandomInt b w = w % b ∧ cryptoRandomInt b w < b := by
  unfold cryptoRandomInt
  rw [if_neg (Nat.pos_iff_ne_zero.mp hb)]
  exact ⟨rfl, Nat.mod_lt _ hb⟩

theorem cryptoRandomInt_spec_witness :
    12345 < UINT32 ∧ 0 < 24 ∧
    (cryptoRandomInt 24 12345 = 12345 % 24 ∧ cryptoRandomInt 24 12345 < 24) :=
  ⟨by decide, by decide, cryptoRandomInt_spec 12345 24 (by decide) (by decide)⟩

theorem cryptoRandomInt_lt (b w : Nat) (hb : 0 < b) : cryptoRandomInt b w < b := by
  unfold cryptoRandomInt
  rw [if_neg (Nat.pos_iff_ne_zero.mp hb)]
  exact Nat.mod_lt _ hb

/-- Moving the element at index `m` to the front while writing `x` in its
place is a permutation of putting `x` at the front. -/
theorem getD_set_cons_perm {α : Type} :
    ∀ (t : List α) (m : Nat) (x : α), m < t.length →
      List.Perm (t.getD m x :: t.set m x) (x :: t)
  | y :: t, 0, x, _ => List.Perm.swap x y t
  | y :: t, m + 1, x, h => by
    have ih := getD_set_cons_perm t m x (Nat.lt_of_succ_lt_succ h)
    show List.Perm (t.getD m x :: y :: t.set m x) (x :: y :: t)
    exact ((List.Perm.swap y (t.getD m x) (t.set m x)).trans
      (List.Perm.cons y ih)).trans (List.Perm.swap x y t)

/-- Swapping the entries at two in-range positions permutes the list. -/
theorem set_set_perm {α : Type} :
    ∀ (a : List α) (i j : Nat) (x y : α), a[i]? = some x →
      a[j]? = some y → List.Perm ((a.set i y).set j x) a
  | [], i, j, x, y, hx, _ => by simp at hx
  | z :: t, 0, 0, x, y, hx, hy => by
    simp at hx hy
    subst hx; subst hy
    exact List.Perm.refl _
  | z :: t, 0, m + 1, x, y, hx, hy => by
    simp at hx hy
    subst hx
    obtain ⟨hm, hy⟩ := List.getElem?_eq_some_iff.mp hy
    show List.Perm (y :: t.set m z) (z :: t)
    rw [← hy, ← List.getD_eq_getElem t z hm]
    exact getD_set_cons_perm t m z hm
  | z :: t, m + 1, 0, x, y, hx, hy => by
    simp at hx hy
    subst hy
    obtain ⟨hm, hx⟩ := List.getElem?_eq_some_iff.mp hx
    show List.Perm (x :: t.set m z) (z :: t)
    rw [← hx, ← List.getD_eq_getElem t z hm]
    exact getD_set_cons_perm t m z hm
  | z :: t, m + 1, n + 1, x, y, hx, hy => by
    simp at hx hy
    exact List.Perm.cons z (set_set_perm t m n x y hx hy)

theorem listSwap_perm {α : Type} (a : List α) (i j : Nat) :
    List.Perm (listSwap a i j) a := by
  unfold listSwap
  split
  · next x y hx hy => exact set_set_perm a i j x y hx hy
  · exact List.Perm.refl a

theorem shuffleAux_perm {α : Type} (g : Nat → Nat) :
    ∀ (i : Nat) (a : List α) (k : Nat), List.Perm (shuffleAux g a k i).1 a
  | 0, a, _ => List.Perm.refl a
  | i + 1, a, k =>
    List.Perm.trans
      (shuffleAux_perm g i
        (listSwap a (i + 1) (cryptoRandomInt (i + 2) (getRandomWord g k))) (k + 1))
      (listSwap_perm a (i + 1) (cryptoRandomInt (i + 2) (getRandomWord g k)))

/-- Claim C10: `shuffleCrypto` returns a permutation of its input — the
same elements as a multiset, nothing dropped, duplicated or altered — and
in particular a list of the same length, for every input list and every
output sequence of the random source. -/
theorem shuffleCrypto_perm {α : Type} (g : Nat → Nat) (k : Nat) (array : List α) :
    List.Perm (shuffleCrypto g k array).1 array ∧
    (shuffleCrypto g k array).1.length = array.length :=
  have h := shuffleAux_perm g (array.length - 1) array k
  ⟨h, h.length_eq⟩

theorem buildPools_length (o : Options) : (buildPools o).length = poolsCount o := by
  rcases o with ⟨u, l, d, s, e⟩
  cases u <;> cases l <;> cases d <;> cases s <;> cases e <;> rfl

theorem buildPools_pos (o : Options) (p : List Char) (hp : p ∈ buildPools o) :
    0 < p.length := by
  simp only [buildPools] at hp
  exact of_decide_eq_true (List.mem_filter.mp hp).2

theorem mem_buildPools_eq (o : Options) (p : List Char) (hp : p ∈ buildPools o) :
    p = sanitizeCharset CHARSETS_upper o.easyToRead ∨
    p = sanitizeCharset CHARSETS_lower o.easyToRead ∨
    p = sanitizeCharset CHARSETS_digits o.easyToRead ∨
    p = sanitizeCharset CHARSETS_symbols o.easyToRead := by
  simp only [buildPools] at hp
  have hmem := (List.mem_filter.mp hp).1
  rcases o with ⟨u, l, d, s, e⟩
  cases u <;> cases l <;> cases d <;> cases s <;> simp_all <;> tauto

/-- Claim C6: `buildPools` returns, in the fixed order upper, lower, digits,
symbols, the canonical alphabet of each enabled category, with the ambiguous
characters filtered out (order preserved) when `easyToRead` is set and empty
pools discarded; every returned pool is non-empty. -/
theorem buildPools_spec (o : Options) :
    buildPools o =
      (((if o.useUpper then [CHARSETS_upper] else []) ++
        (if o.useLower then [CHARSETS_lower] else []) ++
        (if o.useDigits then [CHARSETS_digits] else []) ++
        (if o.useSymbols then [CHARSETS_symbols] else [])).map
          (fun s => if o.easyToRead then
            s.filter (fun c => ! AMBIGUOUS.contains c) else s)).filter
        (fun p => ! p.isEmpty)
    ∧ (buildPools o).all (fun p => ! p.isEmpty) = true := by
  rcases o with ⟨u, l, d, s, e⟩
  cases u <;> cases l <;> cases d <;> cases s <;> cases e <;> exact ⟨rfl, rfl⟩

/-- Claim C7: with no category enabled, `buildPools` yields the empty
sequence and `generatePassword` the empty password, for every length and
every random source, with no error. -/
theorem generatePassword_all_disabled (o : Options) (h : poolsCount o = 0)
    (g : Nat → Nat) (k len : Nat) :
    buildPools o = [] ∧ generatePassword g k len o = [] := by
  rcases o with ⟨u, l, d, s, e⟩
  cases u <;> cases l <;> cases d <;> cases s <;> cases e <;>
    first
      | exact absurd h (by decide)
      | exact ⟨rfl, rfl⟩

theorem generatePassword_all_disabled_witness :
    poolsCount ⟨false, false, false, false, false⟩ = 0 ∧
    (buildPools ⟨false, false, false, false, false⟩ = [] ∧
      generatePassword gW 0 12 ⟨false, false, false, false, false⟩ = []) :=
  ⟨by decide, generatePassword_all_disabled ⟨false, false, false, false, false⟩
    (by decide) gW 0 12⟩

/-- Claim C8: `buildPools` and `generatePassword` are pure functions of
their arguments — two configurations that agree field by field produce the
same pools, and the same password when the random source stream and counter
agree. -/
theorem core_deterministic (o1 o2 : Options)
    (h1 : o1.useUpper = o2.useUpper) (h2 : o1.useLower = o2.useLower)
    (h3 : o1.useDigits = o2.useDigits) (h4 : o1.useSymbols = o2.useSymbols)
    (h5 : o1.easyToRead = o2.easyToRead) (g : Nat → Nat) (k len : Nat) :
    buildPools o1 = buildPools o2 ∧
    generatePassword g k len o1 = generatePassword g k len o2 := by
  have ho : o1 = o2 := by
    rcases o1 with ⟨u1, l1, d1, s1, e1⟩
    rcases o2 with ⟨u2, l2, d2, s2, e2⟩
    simp_all
  rw [ho]
  exact ⟨rfl, rfl⟩

theorem core_deterministic_witness :
    oW.useUpper = oW.useUpper ∧ oW.useLower = oW.useLower ∧
    oW.useDigits = oW.useDigits ∧ oW.useSymbols = oW.useSymbols ∧
    oW.easyToRead = oW.easyToRead ∧
    (buildPools oW = buildPools oW ∧
      generatePassword gW 0 12 oW = generatePassword gW 0 12 oW) :=
  ⟨rfl, rfl, rfl, rfl, rfl,
    core_deterministic oW oW rfl rfl rfl rfl rfl gW 0 12⟩

theorem requiredChars_length (g : Nat → Nat) :
    ∀ (ps : List (List Char)) (k : Nat),
      (requiredChars g ps k).1.length = ps.length
  | [], _ => rfl
  | p :: ps, k => by
    simp [requiredChars, requiredChars_length g ps (k + 1)]

theorem fillerChars_length (g : Nat → Nat) (combined : List Char) :
    ∀ (n k : Nat), (fillerChars g combined n k).1.length = n
  | 0, _ => rfl
  | n + 1, k => by
    simp [fillerChars, fillerChars_length g combined n (k + 1)]

theorem requiredChars_covers (g : Nat → Nat) :
    ∀ (ps : List (List Char)) (k : Nat) (p : List Char), p ∈ ps → 0 < p.length →
      ∃ c, c ∈ (requiredChars g ps k).1 ∧ c ∈ p
  | q :: ps, k, p, hp, hpos => by
    rcases List.mem_cons.mp hp with h | h
    · subst h
      refine ⟨p.getD (cryptoRandomInt p.length (getRandomWord g k)) ' ', ?_, ?_⟩
      · simp [requiredChars]
      · rw [List.getD_eq_getElem p ' ' (cryptoRandomInt_lt _ _ hpos)]
        exact List.getElem_mem _
    · obtain ⟨c, hc1, hc2⟩ := requiredChars_covers g ps (k + 1) p h hpos
      refine ⟨c, ?_, hc2⟩
      simp [requiredChars]
      right
      exact hc1

theorem requiredChars_sources (g : Nat → Nat) :
    ∀ (ps : List (List Char)) (k : Nat) (c : Char),
      c ∈ (requiredChars g ps k).1 → (∀ p ∈ ps, 0 < p.length) →
      ∃ p, p ∈ ps ∧ c ∈ p
  | [], _, c, hc, _ => by simp [requiredChars] at hc
  | q :: ps, k, c, hc, hpos => by
    have hc2 : c = q.getD (cryptoRandomInt q.length (getRandomWord g k)) ' ' ∨
        c ∈ (requiredChars g ps (k + 1)).1 := by
      simpa [requiredChars] using hc
    rcases hc2 with h | h
    · subst h
      have hq : 0 < q.length := hpos q (List.mem_cons_self q ps)
      refine ⟨q, List.mem_cons_self q ps, ?_⟩
      rw [List.getD_eq_getElem q ' ' (cryptoRandomInt_lt _ _ hq)]
      exact List.getElem_mem _
    · obtain ⟨p, hp1, hp2⟩ := requiredChars_sources g ps (k + 1) c h
        (fun p hp => hpos p (List.mem_cons_of_mem q hp))
      exact ⟨p, List.mem_cons_of_mem q hp1, hp2⟩

theorem fillerChars_mem (g : Nat → Nat) (combined : List Char) :
    ∀ (n k : Nat) (c : Char), c ∈ (fillerChars g combined n k).1 →
      0 < combined.length → c ∈ combined
  | 0, _, c, hc, _ => by simp [fillerChars] at hc
  | n + 1, k, c, hc, hpos => by
    have hc2 : c = combined.getD
        (cryptoRandomInt combined.length (getRandomWord g k)) ' ' ∨
        c ∈ (fillerChars g combined n (k + 1)).1 := by
      simpa [fillerChars] using hc
    rcases hc2 with h | h
    · subst h
      rw [List.getD_eq_getElem combined ' ' (cryptoRandomInt_lt _ _ hpos)]
      exact List.getElem_mem _
    · exact fillerChars_mem g combined n (k + 1) c h hpos

/-- Every character of a generated password comes from one of the pools. -/
theorem mem_generatePassword (g : Nat → Nat) (k len : Nat) (o : Options)
    (c : Char) (hc : c ∈ generatePassword g k len o) :
    ∃ p, p ∈ buildPools o ∧ c ∈ p := by
  by_cases h : (buildPools o).length = 0
  · simp only [generatePassword] at hc
    rw [if_pos h] at hc
    exact absurd hc (List.not_mem_nil c)
  · simp only [generatePassword, shuffleCrypto] at hc
    rw [if_neg h] at hc
    have hc2 := (shuffleAux_perm g _ _ _).mem_iff.mp hc
    rcases List.mem_append.mp hc2 with h1 | h1
    · exact requiredChars_sources g (buildPools o) k c h1
        (fun p hp => buildPools_pos o p hp)
    · have hfl : 0 < (buildPools o).flatten.length := by
        rcases hbp : buildPools o with _ | ⟨p0, tl⟩
        · exact absurd (by rw [hbp]; rfl) h
        · have hp0 := buildPools_pos o p0 (by rw [hbp]; exact List.mem_cons_self p0 tl)
          simp only [hbp, List.flatten_cons, List.length_append]
          omega
      have := fillerChars_mem g (buildPools o).flatten _ _ c h1 hfl
      exact List.mem_flatten.mp this

/-- Claim C1: when at least one category is enabled and the requested length
is at least the number of enabled categories, the generated password has
exactly the requested length, for every output sequence of the random
source. -/
theorem generatePassword_length (g : Nat → Nat) (k len : Nat) (o : Options)
    (h1 : 1 ≤ poolsCount o) (h2 : poolsCount o ≤ len) :
    (generatePassword g k len o).length = len := by
  have hbp := buildPools_length o
  have hne : ¬ (buildPools o).length = 0 := by omega
  simp only [generatePassword, shuffleCrypto]
  rw [if_neg hne]
  rw [(shuffleAux_perm g _ _ _).length_eq, List.length_append,
    fillerChars_length, requiredChars_length]
  omega

theorem generatePassword_length_witness :
    1 ≤ poolsCount oW ∧ poolsCount oW ≤ 12 ∧
    (generatePassword gW 0 12 oW).length = 12 :=
  ⟨by decide, by decide, generatePassword_length gW 0 12 oW (by decide) (by decide)⟩

/-- Claim C2: under the same preconditions, the generated password contains
at least one character of every pool returned by `buildPools` — that is, of
each enabled category's filtered alphabet — for every output sequence of
the random source. -/
theorem generatePassword_covers (g : Nat → Nat) (k len : Nat) (o : Options)
    (h1 : 1 ≤ poolsCount o) (h2 : poolsCount o ≤ len) :
    (buildPools o).all
      (fun p => (generatePassword g k len o).any (fun c => p.contains c)) = true := by
  rw [List.all_eq_true]
  intro p hp
  have hne : ¬ (buildPools o).length = 0 := by
    intro h0
    rw [List.length_eq_zero] at h0
    rw [h0] at hp
    exact absurd hp (List.not_mem_nil p)
  obtain ⟨c, hc1, hc2⟩ :=
    requiredChars_covers g (buildPools o) k p hp (buildPools_pos o p hp)
  show (generatePassword g k len o).any (fun c => p.contains c) = true
  rw [List.any_eq_true]
  refine ⟨c, ?_, ?_⟩
  · simp only [generatePassword, shuffleCrypto]
    rw [if_neg hne]
    exact (shuffleAux_perm g _ _ _).mem_iff.mpr (List.mem_append_left _ hc1)
  · show p.contains c = true
    simpa using hc2

theorem generatePassword_covers_witness :
    1 ≤ poolsCount oW ∧ poolsCount oW ≤ 12 ∧
    (buildPools oW).all
      (fun p => (generatePassword gW 0 12 oW).any (fun c => p.contains c)) = true :=
  ⟨by decide, by decide, generatePassword_covers gW 0 12 oW (by decide) (by decide)⟩

theorem mem_sanitizeCharset_true (s : List Char) (c : Char)
    (hc : c ∈ sanitizeCharset s true) : (! AMBIGUOUS.contains c) = true := by
  have hc2 : c ∈ s.filter (fun ch => ! AMBIGUOUS.contains ch) := hc
  exact (List.mem_filter.mp hc2).2

/-- Claim C3: with `easyToRead` on, no character of the generated password
belongs to the ambiguous set, for every length and every output sequence of
the random source. -/
theorem generatePassword_easyToRead (g : Nat → Nat) (k len : Nat) (o : Options)
    (h : o.easyToRead = true) :
    (generatePassword g k len o).all (fun c => ! AMBIGUOUS.contains c) = true := by
  rw [List.all_eq_true]
  intro c hc
  show (! AMBIGUOUS.contains c) = true
  obtain ⟨p, hp, hcp⟩ := mem_generatePassword g k len o c hc
  rcases mem_buildPools_eq o p hp with h4 | h4 | h4 | h4 <;>
    rw [h4, h] at hcp <;> exact mem_sanitizeCharset_true _ c hcp

theorem generatePassword_easyToRead_witness :
    oW.easyToRead = true ∧
    (generatePassword gW 0 12 oW).all (fun c => ! AMBIGUOUS.contains c) = true :=
  ⟨rfl, generatePassword_easyToRead gW 0 12 oW rfl⟩

end PasswordGenerator
